import Mathlib

/-!
Shallow embedding of the routype typed HTTP client core (src/index.ts):
route descriptors (`defineRoute`), path interpolation (`interpolatePath`),
query serialization (`buildQuery`), request building and response
interpretation (`buildMethod`), and the error type (`HttpError`, modelled
by `CallError.httpError`).

JavaScript strings are modelled as `List Char` (`JStr`).  The platform
collaborators are modelled explicitly: `JSON.parse` as an abstract
function `jp : JStr → Option Json` (quantified in theorems), the
`fetch` transport as a function `RequestData → Response`, and the
`Headers` / `URLSearchParams` builtins by their list semantics for the
operations the source uses.
-/

abbrev JStr := List Char

/-- Coerce a Lean string literal to the `List Char` model of JS strings. -/
def strL (s : String) : JStr := s.data

/-- First character class of the placeholder regex `[a-zA-Z_]`. -/
def isIdentStart (c : Char) : Bool := c.isAlpha || c = '_'

/-- Continuation character class of the placeholder regex `[a-zA-Z0-9_]`. -/
def isIdentChar (c : Char) : Bool := c.isAlphanum || c = '_'

/-- JS object property lookup (`params[key]`) on an association list:
`none` models `undefined`. -/
def lookupL : List (JStr × JStr) → JStr → Option JStr
  | [], _ => none
  | (k, v) :: rest, key => if k = key then some v else lookupL rest key

/-- The uppercase hexadecimal digit alphabet. -/
def hexDigits : JStr := strL "0123456789ABCDEF"

/-- Uppercase hexadecimal digit, as produced by `encodeURIComponent`
and the URL-encoded serializer (only indices below 16 arise). -/
def hexDigitChar (n : Nat) : Char := hexDigits.getD n 'F'

/-- Percent-escape of one byte: `%XY` with uppercase hex. -/
def percentByte (b : Nat) : JStr := ['%', hexDigitChar (b / 16), hexDigitChar (b % 16)]

/-- UTF-8 encoding of one code point, as used by the URL encoders. -/
def utf8Bytes (c : Char) : List Nat :=
  let n := c.toNat
  if n < 128 then [n]
  else if n < 2048 then [192 + n / 64, 128 + n % 64]
  else if n < 65536 then [224 + n / 4096, 128 + (n / 64) % 64, 128 + n % 64]
  else [240 + n / 262144, 128 + (n / 4096) % 64, 128 + (n / 64) % 64, 128 + n % 64]

/-- Percent-escapes for every UTF-8 byte of one character. -/
def percentEncodeChar (c : Char) : JStr :=
  (utf8Bytes c).foldr (fun b acc => percentByte b ++ acc) []

/-- The unreserved set of `encodeURIComponent`:
alphanumerics and `- _ . ! ~ * ' ( )`. -/
def isUriUnreserved (c : Char) : Bool :=
  c.isAlphanum || c ∈ ['-', '_', '.', '!', '~', '*', Char.ofNat 39, '(', ')']

/-- The `encodeURIComponent` builtin (ECMA-262), used by `interpolatePath`. -/
def encodeURIComponent : JStr → JStr
  | [] => []
  | c :: rest =>
    (if isUriUnreserved c then [c] else percentEncodeChar c) ++ encodeURIComponent rest

/-- The safe set of the `application/x-www-form-urlencoded` serializer:
alphanumerics and `* - . _`. -/
def isFormSafe (c : Char) : Bool := c.isAlphanum || c ∈ ['*', '-', '.', '_']

/-- The `application/x-www-form-urlencoded` escape used by
`URLSearchParams.toString`: space becomes `+`, the safe set is kept,
everything else is percent-escaped. -/
def formUrlEncode : JStr → JStr
  | [] => []
  | c :: rest =>
    (if c = ' ' then ['+'] else if isFormSafe c then [c] else percentEncodeChar c)
      ++ formUrlEncode rest

/-- JSON values (the JS values the client serializes and parses).
Numbers are modelled as integers; floating-point formatting is outside
the claims under verification. -/
inductive Json where
  | null : Json
  | bool (b : Bool) : Json
  | num (n : Int) : Json
  | str (s : JStr) : Json
  | arr (elems : List Json) : Json
  | obj (fields : List (JStr × Json)) : Json

/-- A JS value that may also be `undefined` (`none`). -/
abbrev Js := Option Json

/-- Escape of one character inside a JSON string literal
(`JSON.stringify` semantics). -/
def jsonEscapeChar (c : Char) : JStr :=
  if c = '"' then ['\\', '"']
  else if c = '\\' then ['\\', '\\']
  else if c = '\n' then ['\\', 'n']
  else if c = '\r' then ['\\', 'r']
  else if c = '\t' then ['\\', 't']
  else if c = Char.ofNat 8 then ['\\', 'b']
  else if c = Char.ofNat 12 then ['\\', 'f']
  else if c.toNat < 32 then
    ['\\', 'u', '0', '0', hexDigitChar (c.toNat / 16), hexDigitChar (c.toNat % 16)]
  else [c]

/-- Escape of a JSON string body. -/
def jsonEscape : JStr → JStr
  | [] => []
  | c :: rest => jsonEscapeChar c ++ jsonEscape rest

/-- Join a list of strings with a separator character. -/
def joinSep (sep : Char) : List JStr → JStr
  | [] => []
  | [x] => x
  | x :: y :: xs => x ++ sep :: joinSep sep (y :: xs)

mutual

/-- The `JSON.stringify` builtin restricted to the `Json` universe,
used for non-raw request bodies. -/
def jsonStringify : Json → JStr
  | Json.null => strL "null"
  | Json.bool b => if b then strL "true" else strL "false"
  | Json.num n => (toString n).data
  | Json.str s => '"' :: jsonEscape s ++ ['"']
  | Json.arr elems => '[' :: joinSep ',' (jsonStringifyList elems) ++ [']']
  | Json.obj fields => '{' :: joinSep ',' (jsonStringifyFields fields) ++ ['}']

/-- Stringify of the elements of a JSON array. -/
def jsonStringifyList : List Json → List JStr
  | [] => []
  | j :: js => jsonStringify j :: jsonStringifyList js

/-- Stringify of the fields of a JSON object. -/
def jsonStringifyFields : List (JStr × Json) → List JStr
  | [] => []
  | (k, v) :: fs => ('"' :: jsonEscape k ++ '"' :: ':' :: jsonStringify v) :: jsonStringifyFields fs

end

/-- Scalar query values (`string | number | boolean`). -/
inductive QPrim where
  | str (s : JStr) : QPrim
  | int (n : Int) : QPrim
  | bool (b : Bool) : QPrim

/-- The JS `String(value)` form of a scalar query value. -/
def qprimStr : QPrim → JStr
  | QPrim.str s => s
  | QPrim.int n => (toString n).data
  | QPrim.bool b => if b then strL "true" else strL "false"

/-- The source's `QueryValue`:
`string | number | boolean | null | undefined | Array of scalars`. -/
inductive QueryValue where
  | prim (p : QPrim) : QueryValue
  | null : QueryValue
  | undef : QueryValue
  | arr (xs : List QPrim) : QueryValue

/-- `URLSearchParams.set`: overwrite the first pair with the given name and
drop the remaining ones, or append when the name is absent. -/
def uspSet : List (JStr × JStr) → JStr → JStr → List (JStr × JStr)
  | [], k, v => [(k, v)]
  | (k1, v1) :: rest, k, v =>
    if k1 = k then (k, v) :: rest.filter (fun p => decide (p.1 ≠ k))
    else (k1, v1) :: uspSet rest k v

/-- One step of the `buildQuery` loop body over the `URLSearchParams` state:
skip `null`/`undefined`, `append` each element of an array, `set` a scalar. -/
def buildQueryStep (acc : List (JStr × JStr)) (e : JStr × QueryValue) : List (JStr × JStr) :=
  match e.2 with
  | QueryValue.null => acc
  | QueryValue.undef => acc
  | QueryValue.arr xs => xs.foldl (fun a x => a ++ [(e.1, qprimStr x)]) acc
  | QueryValue.prim p => uspSet acc e.1 (qprimStr p)

/-- The pair list accumulated by `buildQuery` (the `URLSearchParams` value
just before `toString`). -/
def buildQueryParams (q : List (JStr × QueryValue)) : List (JStr × JStr) :=
  q.foldl buildQueryStep []

/-- `URLSearchParams.toString`: form-url-encode each name and value and join
`name=value` pairs with `&`. -/
def uspToString (l : List (JStr × JStr)) : JStr :=
  joinSep '&' (l.map (fun p => formUrlEncode p.1 ++ '=' :: formUrlEncode p.2))

/-- The source's `buildQuery` (src/index.ts): fold the query record through
a `URLSearchParams` and serialize it. -/
def buildQuery (q : List (JStr × QueryValue)) : JStr :=
  uspToString (buildQueryParams q)

/-- `new Headers(record)`: header names are normalized to lowercase. -/
def headersInit (hs : List (JStr × JStr)) : List (JStr × JStr) :=
  hs.map (fun p => (p.1.map Char.toLower, p.2))

/-- `Headers.set`: normalize the name and overwrite any existing entry. -/
def headersSet (hs : List (JStr × JStr)) (k v : JStr) : List (JStr × JStr) :=
  uspSet hs (k.map Char.toLower) v

/-- `Headers.get`: normalize the name and return the stored value. -/
def headersGet (hs : List (JStr × JStr)) (k : JStr) : Option JStr :=
  lookupL hs (k.map Char.toLower)

/-- The source's `interpolatePath`
(`path.replace(/:([a-zA-Z_][a-zA-Z0-9_]*)/g, cb)`): replace each `:name`
placeholder by `encodeURIComponent` of the supplied value, or fail with the
name of the first placeholder whose value is `undefined`
(`Missing path param`). -/
def interpolatePath (ps : List (JStr × JStr)) : JStr → Except JStr JStr
  | [] => Except.ok []
  | c :: rest =>
    if c = ':' then
      match rest with
      | [] => Except.ok [c]
      | d :: tail =>
        if isIdentStart d then
          match lookupL ps ((d :: tail).takeWhile isIdentChar) with
          | none => Except.error ((d :: tail).takeWhile isIdentChar)
          | some v => Except.map (fun t => encodeURIComponent v ++ t)
              (interpolatePath ps ((d :: tail).dropWhile isIdentChar))
        else Except.map (fun t => c :: t) (interpolatePath ps (d :: tail))
    else Except.map (fun t => c :: t) (interpolatePath ps rest)
termination_by l => l.length
decreasing_by
  all_goals simp only [List.length_cons]
  · have h := (List.dropWhile_suffix (l := d :: tail) (p := isIdentChar)).length_le
    simp only [List.length_cons] at h
    omega
  · omega
  · omega

/-- The placeholder names of a template, in order of occurrence, following
the same scan as `interpolatePath`. -/
def placeholdersL : JStr → List JStr
  | [] => []
  | c :: rest =>
    if c = ':' then
      match rest with
      | [] => []
      | d :: tail =>
        if isIdentStart d then
          (d :: tail).takeWhile isIdentChar :: placeholdersL ((d :: tail).dropWhile isIdentChar)
        else placeholdersL (d :: tail)
    else placeholdersL rest
termination_by l => l.length
decreasing_by
  all_goals simp only [List.length_cons]
  · have h := (List.dropWhile_suffix (l := d :: tail) (p := isIdentChar)).length_le
    simp only [List.length_cons] at h
    omega
  · omega
  · omega

/-- Whether a string begins with an identifier-start character. -/
def startsIdent : JStr → Bool
  | [] => false
  | d :: _ => isIdentStart d

/-- Whether a string begins with a placeholder, that is, a `:` sigil
immediately followed by an identifier. -/
def startsColonIdent : JStr → Bool
  | [] => false
  | d :: rest => if d = ':' then startsIdent rest else false

/-- Whether a string contains a placeholder token, a `:` sigil immediately
followed by an identifier. -/
def hasPlaceholderToken : JStr → Bool
  | [] => false
  | c :: rest => (if c = ':' then startsIdent rest else false) || hasPlaceholderToken rest

/-- A template in which no placeholder is immediately preceded by a further
`:` sigil (no occurrence of `::` directly followed by an identifier). -/
def okTemplate : JStr → Bool
  | [] => true
  | c :: rest => (if c = ':' then !startsColonIdent rest else true) && okTemplate rest

/-- Modelled from the spec (4.3 path interpolation): the expected result of
substituting every placeholder by the percent-encoding of its supplied
value, compared against `interpolatePath` in the claims. -/
def renderTemplate (ps : List (JStr × JStr)) : JStr → JStr
  | [] => []
  | c :: rest =>
    if c = ':' then
      match rest with
      | [] => [c]
      | d :: tail =>
        if isIdentStart d then
          encodeURIComponent ((lookupL ps ((d :: tail).takeWhile isIdentChar)).getD [])
            ++ renderTemplate ps ((d :: tail).dropWhile isIdentChar)
        else c :: renderTemplate ps (d :: tail)
    else c :: renderTemplate ps rest
termination_by l => l.length
decreasing_by
  all_goals simp only [List.length_cons]
  · have h := (List.dropWhile_suffix (l := d :: tail) (p := isIdentChar)).length_le
    simp only [List.length_cons] at h
    omega
  · omega
  · omega

/-- The HTTP method union of the source. -/
inductive HttpMethod where
  | GET | POST | PUT | PATCH | DELETE | HEAD | OPTIONS
deriving DecidableEq

/-- The runtime shape of a `RouteDefinition` record: method, path template
and the four phantom data slots. -/
structure RouteDefinition where
  method : HttpMethod
  path : JStr
  _params : Js
  _query : Js
  _body : Js
  _output : Js

/-- The runtime shape of a `defineRoute` config object: the four optional
slots hold whatever runtime values the caller supplied (`none` models
`undefined`, the value every `t<T>()` shape tag evaluates to). -/
structure DefineRouteConfig where
  method : HttpMethod
  path : JStr
  params : Js
  query : Js
  body : Js
  output : Js

/-- The source's `defineRoute` (src/index.ts): keep method and path, store
the sentinel `undefined` in all four phantom slots. -/
def defineRoute (config : DefineRouteConfig) : RouteDefinition :=
  { method := config.method
    path := config.path
    _params := none
    _query := none
    _body := none
    _output := none }

/-- The surface of the transport's response object used by the client:
`status`, `headers.get('content-type')`, and the body text, whose read may
itself fail (`Except.error` models a rejected `text()` promise). -/
structure Response where
  status : Nat
  contentType : Option JStr
  textResult : Except Unit JStr

/-- `Response.ok`: status in the range 200 to 299. -/
def resOk (res : Response) : Bool := 200 ≤ res.status && res.status ≤ 299

/-- `res.text().catch(() => '')`: the body text, or the empty string when
reading it fails. -/
def responseTextOrEmpty (res : Response) : JStr :=
  match res.textResult with
  | Except.ok t => t
  | Except.error _ => []

/-- `res.json()`: JSON-parse of the body text; fails when the text read
fails or the text is not valid JSON.  The `JSON.parse` builtin is the
abstract parameter `jp`. -/
def resJson (jp : JStr → Option Json) (res : Response) : Except Unit Json :=
  match res.textResult with
  | Except.error _ => Except.error ()
  | Except.ok t =>
    match jp t with
    | some v => Except.ok v
    | none => Except.error ()

/-- The source's `parseResponseBody`: read the text (falling back to the
empty string), then `JSON.parse` it, falling back to the raw text. -/
def parseResponseBody (jp : JStr → Option Json) (res : Response) : Json :=
  match jp (responseTextOrEmpty res) with
  | some v => v
  | none => Json.str (responseTextOrEmpty res)

/-- Client options: resolved header set, base URL and the two optional
response overrides.  The `fetch` transport is passed separately. -/
structure ClientOptions where
  baseUrl : JStr
  headers : List (JStr × JStr)
  mapResponse : Option (Response → Js)
  parseError : Option (Response → Js)

/-- The failure modes of one client-method invocation: the interpolation
throw (`Missing path param`), a thrown `HttpError` with its status and
body, or a propagated JSON decode failure on the success path. -/
inductive CallError where
  | missingParam (key : JStr) : CallError
  | httpError (status : Nat) (body : Js) : CallError
  | decodeError : CallError

/-- The request payload as handed to `fetch`: raw pass-through or
serialized JSON text. -/
inductive BodySent where
  | raw : BodySent
  | text (s : JStr) : BodySent

/-- The body argument of a call: a raw transport-native payload
(`FormData`/`Blob`/`ReadableStream`) or an ordinary JS value. -/
inductive BodyInput where
  | raw : BodyInput
  | jsVal (j : Json) : BodyInput

/-- The argument object of a client-method invocation; each member may be
omitted (`none` models `undefined`). -/
structure CallArgs where
  params : Option (List (JStr × JStr))
  query : Option (List (JStr × QueryValue))
  body : Option BodyInput

/-- The `(url, init)` pair passed to the transport. -/
structure RequestData where
  url : JStr
  method : HttpMethod
  headers : List (JStr × JStr)
  body : Option BodySent

/-- The request-building half of `buildMethod` (src/index.ts lines 141-173):
interpolate the path when `params` is present, append the query string when
non-empty, resolve headers, force the JSON content type for a present
non-raw body, and serialize the body. -/
def buildRequest (route : RouteDefinition) (baseUrl : JStr) (options : ClientOptions)
    (args : CallArgs) : Except CallError RequestData :=
  (match args.params with
    | some ps => Except.mapError CallError.missingParam (interpolatePath ps route.path)
    | none => Except.ok route.path).bind fun path1 =>
  let path := match args.query with
    | some q => if buildQuery q = [] then path1 else path1 ++ '?' :: buildQuery q
    | none => path1
  let headers0 := headersInit options.headers
  let headers := match args.body with
    | some (BodyInput.jsVal _) => headersSet headers0 (strL "Content-Type") (strL "application/json")
    | _ => headers0
  Except.ok
    { url := baseUrl ++ path
      method := route.method
      headers := headers
      body := match args.body with
        | none => none
        | some BodyInput.raw => some BodySent.raw
        | some (BodyInput.jsVal j) => some (BodySent.text (jsonStringify j)) }

/-- The response-interpretation half of `buildMethod`
(src/index.ts lines 175-187): non-2xx statuses throw an `HttpError` whose
body comes from `parseError` or `parseResponseBody`; on success
`mapResponse` wins when supplied, then 204 and a missing (or empty)
content-type yield `undefined`, and otherwise the body is `res.json()`. -/
def interpretResponse (jp : JStr → Option Json) (options : ClientOptions)
    (res : Response) : Except CallError Js :=
  if resOk res then
    match options.mapResponse with
    | some f => Except.ok (f res)
    | none =>
      if res.status = 204 then Except.ok none
      else
        match res.contentType with
        | none => Except.ok none
        | some ct =>
          if ct = [] then Except.ok none
          else
            match resJson jp res with
            | Except.ok v => Except.ok (some v)
            | Except.error _ => Except.error CallError.decodeError
  else
    Except.error (CallError.httpError res.status
      (match options.parseError with
        | some f => f res
        | none => some (parseResponseBody jp res)))

/-- The full pipeline of one client-method invocation as wired by
`buildMethod`: build the request, perform the exchange through the
transport, interpret the response. -/
def buildMethod (jp : JStr → Option Json) (route : RouteDefinition) (baseUrl : JStr)
    (fetchFn : RequestData → Response) (options : ClientOptions)
    (args : CallArgs) : Except CallError Js :=
  (buildRequest route baseUrl options args).bind fun req =>
    interpretResponse jp options (fetchFn req)

/-- `createClient` configuration step for one method: strip one trailing
slash from the base URL (`options.baseUrl.replace` of a trailing slash)
and close `buildMethod` over it. -/
def stripTrailingSlash (s : JStr) : JStr :=
  if s.getLast? = some '/' then s.dropLast else s

/-- One client-method invocation as produced by `createClient`: the base
URL is stripped at configuration time. -/
def clientCall (jp : JStr → Option Json) (route : RouteDefinition)
    (fetchFn : RequestData → Response) (options : ClientOptions)
    (args : CallArgs) : Except CallError Js :=
  buildMethod jp route (stripTrailingSlash options.baseUrl) fetchFn options args

/-- Modelled from the spec (4.3 query serialization): the key-value pairs
one query entry contributes. -/
def qexpand : JStr × QueryValue → List (JStr × JStr)
  | (_, QueryValue.null) => []
  | (_, QueryValue.undef) => []
  | (k, QueryValue.arr xs) => xs.map (fun x => (k, qprimStr x))
  | (k, QueryValue.prim p) => [(k, qprimStr p)]

/-- Modelled from the spec (4.3 query serialization): the surviving
key-value pairs of a query mapping, in entry order, arrays expanded once
per element. -/
def qPairs (q : List (JStr × QueryValue)) : List (JStr × JStr) :=
  q.foldr (fun e acc => qexpand e ++ acc) []

/-- Inversion of `Except.map` on a success result. -/
theorem except_map_ok {α β γ : Type} (f : α → β) (e : Except γ α) (r : β)
    (h : Except.map f e = Except.ok r) : ∃ x, e = Except.ok x ∧ r = f x := by
  cases e with
  | ok x => exact ⟨x, rfl, by simpa [Except.map] using h.symm⟩
  | error y => simp [Except.map] at h

/-- The response interpreter never produces a missing-path-parameter error. -/
theorem interpretResponse_ne_missing (jp : JStr → Option Json) (options : ClientOptions)
    (res : Response) (k : JStr) :
    interpretResponse jp options res ≠ Except.error (CallError.missingParam k) := by
  unfold interpretResponse
  split
  · cases hmr : options.mapResponse with
    | some f => simp
    | none =>
      simp only
      split
      · simp
      · cases hct : res.contentType with
        | none => simp
        | some ct =>
          simp only
          split
          · simp
          · cases hj : resJson jp res with
            | ok v => simp
            | error e => simp
  · simp

/-- C8: for every config, the four phantom slots of the route built by
`defineRoute` carry the sentinel `undefined`, regardless of the shape tag
values supplied in the configuration. -/
theorem c8_phantom_slots_are_undefined (config : DefineRouteConfig) :
    (defineRoute config)._params = none ∧ (defineRoute config)._query = none ∧
    (defineRoute config)._body = none ∧ (defineRoute config)._output = none :=
  ⟨rfl, rfl, rfl, rfl⟩

/-- C6: on a successful response a supplied `mapResponse` override alone
determines the decoded output (even for status 204), and without an
override a 204 response decodes to `undefined` regardless of its headers. -/
theorem c6_mapResponse_and_204 (jp : JStr → Option Json) (options : ClientOptions)
    (res : Response) (hok : resOk res = true) :
    (∀ f, options.mapResponse = some f →
      interpretResponse jp options res = Except.ok (f res)) ∧
    (options.mapResponse = none → res.status = 204 →
      interpretResponse jp options res = Except.ok none) := by
  constructor
  · intro f hf
    simp [interpretResponse, hok, hf]
  · intro hm h204
    simp [interpretResponse, hok, hm, h204]

/-- Witness for C6 at a concrete 204 response carrying a content-type. -/
theorem c6_witness :
    resOk { status := 204, contentType := some (strL "text/plain"),
            textResult := Except.ok [] } = true ∧
    interpretResponse (fun _ => none)
      { baseUrl := [], headers := [], mapResponse := none, parseError := none }
      { status := 204, contentType := some (strL "text/plain"),
        textResult := Except.ok [] } = Except.ok none := by
  refine ⟨by decide, ?_⟩
  exact (c6_mapResponse_and_204 (fun _ => none)
    { baseUrl := [], headers := [], mapResponse := none, parseError := none }
    { status := 204, contentType := some (strL "text/plain"), textResult := Except.ok [] }
    (by decide)).2 rfl rfl

/-- C10: in the default error path, a failing body-text read is swallowed
and the raised `HttpError` carries the empty string as its body. -/
theorem c10_text_failure_gives_empty_body (jp : JStr → Option Json)
    (options : ClientOptions) (res : Response)
    (hjp : jp [] = none) (hok : resOk res = false)
    (ht : res.textResult = Except.error ()) (hpe : options.parseError = none) :
    interpretResponse jp options res =
      Except.error (CallError.httpError res.status (some (Json.str []))) := by
  simp [interpretResponse, hok, hpe, parseResponseBody, responseTextOrEmpty, ht, hjp]

/-- Witness for C10 at a concrete 500 response whose text read fails. -/
theorem c10_witness :
    (fun (_ : JStr) => (none : Option Json)) [] = none ∧
    resOk { status := 500, contentType := none, textResult := Except.error () } = false ∧
    interpretResponse (fun _ => none)
      { baseUrl := [], headers := [], mapResponse := none, parseError := none }
      { status := 500, contentType := none, textResult := Except.error () } =
        Except.error (CallError.httpError 500 (some (Json.str []))) := by
  refine ⟨rfl, by decide, ?_⟩
  exact c10_text_failure_gives_empty_body (fun _ => none)
    { baseUrl := [], headers := [], mapResponse := none, parseError := none }
    { status := 500, contentType := none, textResult := Except.error () }
    rfl (by decide) rfl rfl

/-- C3: every completed exchange with a non-2xx status makes the client
method raise an `HttpError` carrying the response status, whose body is
the JSON-parse of the response text falling back to the raw text when
parsing fails, and, with a `parseError` override, the override's result
verbatim. -/
theorem c3_non2xx_raises_http_error (jp : JStr → Option Json) (route : RouteDefinition)
    (fetchFn : RequestData → Response) (options : ClientOptions) (args : CallArgs)
    (req : RequestData) (res : Response) (t : JStr)
    (hreq : buildRequest route (stripTrailingSlash options.baseUrl) options args = Except.ok req)
    (hfetch : fetchFn req = res)
    (hok : resOk res = false)
    (ht : res.textResult = Except.ok t) :
    (options.parseError = none →
      clientCall jp route fetchFn options args =
        Except.error (CallError.httpError res.status (some ((jp t).getD (Json.str t))))) ∧
    (∀ f, options.parseError = some f →
      clientCall jp route fetchFn options args =
        Except.error (CallError.httpError res.status (f res))) := by
  have hcall : clientCall jp route fetchFn options args = interpretResponse jp options res := by
    unfold clientCall buildMethod
    rw [hreq]
    simp [Except.bind, hfetch]
  constructor
  · intro hpe
    rw [hcall]
    simp only [interpretResponse, hok, hpe, Bool.false_eq_true, if_false]
    have hbody : parseResponseBody jp res = (jp t).getD (Json.str t) := by
      unfold parseResponseBody responseTextOrEmpty
      rw [ht]
      cases jp t <;> simp
    rw [hbody]
  · intro f hpe
    rw [hcall]
    simp [interpretResponse, hok, hpe]

/-- Witness for C3 at a concrete 404 exchange with a non-JSON body text. -/
theorem c3_witness :
    resOk { status := 404, contentType := some (strL "text/plain"),
            textResult := Except.ok (strL "nope") } = false ∧
    clientCall (fun _ => none)
      { method := HttpMethod.GET, path := strL "/x",
        _params := none, _query := none, _body := none, _output := none }
      (fun _ => { status := 404, contentType := some (strL "text/plain"),
                  textResult := Except.ok (strL "nope") })
      { baseUrl := strL "http://a", headers := [], mapResponse := none, parseError := none }
      { params := none, query := none, body := none } =
      Except.error (CallError.httpError 404 (some (Json.str (strL "nope")))) := by
  refine ⟨by decide, ?_⟩
  exact (c3_non2xx_raises_http_error (fun _ => none)
    { method := HttpMethod.GET, path := strL "/x",
      _params := none, _query := none, _body := none, _output := none }
    (fun _ => { status := 404, contentType := some (strL "text/plain"),
                textResult := Except.ok (strL "nope") })
    { baseUrl := strL "http://a", headers := [], mapResponse := none, parseError := none }
    { params := none, query := none, body := none }
    { url := strL "http://a" ++ strL "/x", method := HttpMethod.GET, headers := [], body := none }
    { status := 404, contentType := some (strL "text/plain"),
      textResult := Except.ok (strL "nope") }
    (strL "nope") rfl rfl (by decide) rfl).1 rfl

/-- C2 (code behavior at the failing input): on a 200 response whose
content-type is `text/plain` and whose body text is not valid JSON, the
success path still calls `res.json()` and the call fails with a propagated
decode error instead of returning the raw text. -/
theorem c2_code_eval (jp : JStr → Option Json) (hjp : jp (strL "hello") = none) :
    interpretResponse jp
      { baseUrl := [], headers := [], mapResponse := none, parseError := none }
      { status := 200, contentType := some (strL "text/plain"),
        textResult := Except.ok (strL "hello") } =
      Except.error CallError.decodeError ∧
    interpretResponse jp
      { baseUrl := [], headers := [], mapResponse := none, parseError := none }
      { status := 200, contentType := some (strL "text/plain"),
        textResult := Except.ok (strL "hello") } ≠
      Except.ok (some (Json.str (strL "hello"))) := by
  have h : interpretResponse jp
      { baseUrl := [], headers := [], mapResponse := none, parseError := none }
      { status := 200, contentType := some (strL "text/plain"),
        textResult := Except.ok (strL "hello") } =
      Except.error CallError.decodeError := by
    have hjp2 : jp ['h', 'e', 'l', 'l', 'o'] = none := hjp
    simp [interpretResponse, resOk, resJson, hjp2, strL]
  exact ⟨h, by rw [h]; intro hc; cases hc⟩

/-- Witness for C2's code-evaluation theorem with a parse function that
fails on the non-JSON text `hello`. -/
theorem c2_code_eval_witness :
    (fun (_ : JStr) => (none : Option Json)) (strL "hello") = none ∧
    interpretResponse (fun _ => none)
      { baseUrl := [], headers := [], mapResponse := none, parseError := none }
      { status := 200, contentType := some (strL "text/plain"),
        textResult := Except.ok (strL "hello") } =
      Except.error CallError.decodeError :=
  ⟨rfl, (c2_code_eval (fun _ => none) rfl).1⟩

/-- C1 (code behavior at the failing input): with a caller-configured
`Content-Type` of `text/xml` and a present non-raw body, the built request
carries `application/json`, because `headers.set` overwrites the
caller-supplied entry unconditionally. -/
theorem c1_code_eval :
    ∃ req, buildRequest
      { method := HttpMethod.POST, path := strL "/users",
        _params := none, _query := none, _body := none, _output := none }
      (strL "http://a")
      { baseUrl := strL "http://a",
        headers := [(strL "Content-Type", strL "text/xml")],
        mapResponse := none, parseError := none }
      { params := none, query := none, body := some (BodyInput.jsVal Json.null) } =
      Except.ok req ∧
    headersGet req.headers (strL "Content-Type") = some (strL "application/json") ∧
    headersGet req.headers (strL "Content-Type") ≠ some (strL "text/xml") := by
  refine ⟨_, rfl, ?_, ?_⟩
  · decide
  · decide

/-- The client pipeline reads nothing from `options.baseUrl` after the
configuration-time strip: only the headers and the two overrides matter. -/
theorem buildMethod_baseUrl_irrelevant (jp : JStr → Option Json) (route : RouteDefinition)
    (base : JStr) (fetchFn : RequestData → Response) (u1 u2 hs : _) (m p : _)
    (args : CallArgs) :
    buildMethod jp route base fetchFn
      { baseUrl := u1, headers := hs, mapResponse := m, parseError := p } args =
    buildMethod jp route base fetchFn
      { baseUrl := u2, headers := hs, mapResponse := m, parseError := p } args := rfl

/-- C7 counterexample: with base URL `http://e//` (ending in a slash) and
its version without that trailing slash, `http://e/`, the issued request
URLs differ, because only one slash is stripped at configuration time. -/
theorem c7_counterexample :
    (∃ r1, buildRequest
        { method := HttpMethod.GET, path := strL "/health",
          _params := none, _query := none, _body := none, _output := none }
        (stripTrailingSlash (strL "http://e//"))
        { baseUrl := strL "http://e//", headers := [], mapResponse := none, parseError := none }
        { params := none, query := none, body := none } = Except.ok r1 ∧
        r1.url = strL "http://e//health") ∧
    (∃ r2, buildRequest
        { method := HttpMethod.GET, path := strL "/health",
          _params := none, _query := none, _body := none, _output := none }
        (stripTrailingSlash (strL "http://e/"))
        { baseUrl := strL "http://e/", headers := [], mapResponse := none, parseError := none }
        { params := none, query := none, body := none } = Except.ok r2 ∧
        r2.url = strL "http://e/health") ∧
    strL "http://e//health" ≠ strL "http://e/health" :=
  ⟨⟨_, rfl, by decide⟩, ⟨_, rfl, by decide⟩, by decide⟩

/-- C7 amended: appending a trailing slash to a base URL that does not
already end in a slash changes nothing: the whole client call behaves
identically, the slash being stripped at configuration time. -/
theorem c7_trailing_slash_irrelevant (b : JStr) (hb : b.getLast? ≠ some '/')
    (jp : JStr → Option Json) (route : RouteDefinition) (fetchFn : RequestData → Response)
    (hs : List (JStr × JStr)) (m : Option (Response → Js)) (p : Option (Response → Js))
    (args : CallArgs) :
    clientCall jp route fetchFn
      { baseUrl := b ++ ['/'], headers := hs, mapResponse := m, parseError := p } args =
    clientCall jp route fetchFn
      { baseUrl := b, headers := hs, mapResponse := m, parseError := p } args := by
  have h1 : stripTrailingSlash (b ++ ['/']) = b := by
    unfold stripTrailingSlash
    rw [List.getLast?_concat]
    simp
  have h2 : stripTrailingSlash b = b := by
    unfold stripTrailingSlash
    rw [if_neg hb]
  simp only [clientCall]
  rw [h1, h2]
  exact buildMethod_baseUrl_irrelevant jp route b fetchFn _ _ hs m p args

/-- Witness for the amended C7 at a concrete base URL and route. -/
theorem c7_witness :
    (strL "http://e").getLast? ≠ some '/' ∧
    clientCall (fun _ => none)
      { method := HttpMethod.GET, path := strL "/health",
        _params := none, _query := none, _body := none, _output := none }
      (fun _ => { status := 204, contentType := none, textResult := Except.ok [] })
      { baseUrl := strL "http://e" ++ ['/'], headers := [], mapResponse := none,
        parseError := none }
      { params := none, query := none, body := none } =
    clientCall (fun _ => none)
      { method := HttpMethod.GET, path := strL "/health",
        _params := none, _query := none, _body := none, _output := none }
      (fun _ => { status := 204, contentType := none, textResult := Except.ok [] })
      { baseUrl := strL "http://e", headers := [], mapResponse := none, parseError := none }
      { params := none, query := none, body := none } :=
  ⟨by decide, c7_trailing_slash_irrelevant (strL "http://e") (by decide)
    (fun _ => none)
    { method := HttpMethod.GET, path := strL "/health",
      _params := none, _query := none, _body := none, _output := none }
    (fun _ => { status := 204, contentType := none, textResult := Except.ok [] })
    [] none none
    { params := none, query := none, body := none }⟩

/-- A placeholder token inside the left part of a concatenation survives. -/
theorem hasPlaceholderToken_append_right (a b : JStr)
    (h : hasPlaceholderToken a = true) : hasPlaceholderToken (a ++ b) = true := by
  induction a with
  | nil => simp [hasPlaceholderToken] at h
  | cons c rest ih =>
    simp only [hasPlaceholderToken, Bool.or_eq_true] at h
    simp only [List.cons_append, hasPlaceholderToken, Bool.or_eq_true]
    rcases h with h | h
    · left
      by_cases hc : c = ':'
      · simp only [hc, if_true] at h ⊢
        cases rest with
        | nil => simp [startsIdent] at h
        | cons d t => simpa [startsIdent] using h
      · simp [hc] at h
    · right
      exact ih h

/-- A placeholder token inside the right part of a concatenation survives. -/
theorem hasPlaceholderToken_append_left (a b : JStr)
    (h : hasPlaceholderToken b = true) : hasPlaceholderToken (a ++ b) = true := by
  induction a with
  | nil => simpa using h
  | cons c rest ih =>
    simp only [List.cons_append, hasPlaceholderToken, Bool.or_eq_true]
    right
    exact ih

/-- C9: when the argument object omits `params`, interpolation is skipped
entirely: the call raises no missing-path-parameter error and the request
URL embeds the path template verbatim, placeholder tokens included. -/
theorem c9_omitted_params_skips_interpolation (jp : JStr → Option Json)
    (route : RouteDefinition) (fetchFn : RequestData → Response)
    (options : ClientOptions) (args : CallArgs)
    (hph : hasPlaceholderToken route.path = true)
    (hp : args.params = none) :
    ∃ req qs, buildRequest route (stripTrailingSlash options.baseUrl) options args =
        Except.ok req ∧
      req.url = stripTrailingSlash options.baseUrl ++ (route.path ++ qs) ∧
      hasPlaceholderToken req.url = true ∧
      (∀ k, clientCall jp route fetchFn options args ≠
        Except.error (CallError.missingParam k)) := by
  have hurl : ∀ (req : RequestData) (qs : JStr),
      req.url = stripTrailingSlash options.baseUrl ++ (route.path ++ qs) →
      hasPlaceholderToken req.url = true := by
    intro req qs hre
    rw [hre]
    exact hasPlaceholderToken_append_left _ _ (hasPlaceholderToken_append_right _ _ hph)
  have hbuild : ∃ qs, buildRequest route (stripTrailingSlash options.baseUrl) options args =
      Except.ok
        { url := stripTrailingSlash options.baseUrl ++ (route.path ++ qs)
          method := route.method
          headers := match args.body with
            | some (BodyInput.jsVal _) =>
                headersSet (headersInit options.headers) (strL "Content-Type")
                  (strL "application/json")
            | _ => headersInit options.headers
          body := match args.body with
            | none => none
            | some BodyInput.raw => some BodySent.raw
            | some (BodyInput.jsVal j) => some (BodySent.text (jsonStringify j)) } := by
    unfold buildRequest
    rw [hp]
    cases hq : args.query with
    | none =>
      refine ⟨[], ?_⟩
      simp [Except.bind]
    | some q =>
      by_cases hbq : buildQuery q = []
      · refine ⟨[], ?_⟩
        simp [Except.bind, hbq]
      · refine ⟨'?' :: buildQuery q, ?_⟩
        simp [Except.bind, hbq]
  obtain ⟨qs, hb⟩ := hbuild
  refine ⟨_, qs, hb, rfl, hurl _ qs rfl, ?_⟩
  intro k
  unfold clientCall buildMethod
  rw [hb]
  simp only [Except.bind]
  exact interpretResponse_ne_missing jp options _ k

/-- Witness for C9 at a concrete parametrized route called without params. -/
theorem c9_witness :
    hasPlaceholderToken (strL "/users/:id") = true ∧
    (∃ req qs, buildRequest
        { method := HttpMethod.GET, path := strL "/users/:id",
          _params := none, _query := none, _body := none, _output := none }
        (stripTrailingSlash (strL "http://a"))
        { baseUrl := strL "http://a", headers := [], mapResponse := none, parseError := none }
        { params := none, query := none, body := none } = Except.ok req ∧
      req.url = stripTrailingSlash (strL "http://a") ++ (strL "/users/:id" ++ qs) ∧
      hasPlaceholderToken req.url = true ∧
      (∀ k, clientCall (fun _ => none)
        { method := HttpMethod.GET, path := strL "/users/:id",
          _params := none, _query := none, _body := none, _output := none }
        (fun _ => { status := 204, contentType := none, textResult := Except.ok [] })
        { baseUrl := strL "http://a", headers := [], mapResponse := none, parseError := none }
        { params := none, query := none, body := none } ≠
          Except.error (CallError.missingParam k))) :=
  ⟨by decide, c9_omitted_params_skips_interpolation (fun _ => none)
    { method := HttpMethod.GET, path := strL "/users/:id",
      _params := none, _query := none, _body := none, _output := none }
    (fun _ => { status := 204, contentType := none, textResult := Except.ok [] })
    { baseUrl := strL "http://a", headers := [], mapResponse := none, parseError := none }
    { params := none, query := none, body := none } (by decide) rfl⟩

/-- `URLSearchParams.set` on a state without the key appends at the end. -/
theorem uspSet_append (l : List (JStr × JStr)) (k v : JStr) (h : ∀ p ∈ l, p.1 ≠ k) :
    uspSet l k v = l ++ [(k, v)] := by
  induction l with
  | nil => rfl
  | cons p rest ih =>
    obtain ⟨k1, v1⟩ := p
    have hk : k1 ≠ k := h (k1, v1) (List.mem_cons_self _ _)
    simp only [uspSet, if_neg hk, List.cons_append, List.cons.injEq, true_and]
    exact ih (fun p hp => h p (List.mem_cons_of_mem _ hp))

/-- Folding array-element appends over the parameter state. -/
theorem array_foldl_append (k : JStr) (xs : List QPrim) (acc : List (JStr × JStr)) :
    xs.foldl (fun a x => a ++ [(k, qprimStr x)]) acc =
      acc ++ xs.map (fun x => (k, qprimStr x)) := by
  induction xs generalizing acc with
  | nil => simp
  | cons x xs ih => simp [List.foldl_cons, ih, List.append_assoc]

/-- Every pair contributed by one query entry carries that entry's key. -/
theorem qexpand_key (e : JStr × QueryValue) (p : JStr × JStr) (hp : p ∈ qexpand e) :
    p.1 = e.1 := by
  obtain ⟨k, v⟩ := e
  cases v with
  | null => simp [qexpand] at hp
  | undef => simp [qexpand] at hp
  | prim x => simp [qexpand] at hp; rw [hp]
  | arr xs =>
    simp [qexpand] at hp
    obtain ⟨x, _, hx⟩ := hp
    rw [← hx]

/-- One `buildQuery` loop step appends exactly the entry's expansion when
the state does not yet hold the entry's key. -/
theorem buildQueryStep_eq (acc : List (JStr × JStr)) (e : JStr × QueryValue)
    (h : ∀ p ∈ acc, p.1 ≠ e.1) : buildQueryStep acc e = acc ++ qexpand e := by
  obtain ⟨k, v⟩ := e
  cases v with
  | null => simp [buildQueryStep, qexpand]
  | undef => simp [buildQueryStep, qexpand]
  | arr xs => simp [buildQueryStep, qexpand, array_foldl_append]
  | prim x =>
    simp only [buildQueryStep, qexpand]
    exact uspSet_append acc k _ h

/-- The `buildQuery` fold over entries with pairwise-distinct keys appends
each entry's expansion in order. -/
theorem buildQueryParams_foldl (q : List (JStr × QueryValue)) :
    ∀ acc : List (JStr × JStr), (q.map Prod.fst).Nodup →
    (∀ e ∈ q, ∀ p ∈ acc, p.1 ≠ e.1) →
    q.foldl buildQueryStep acc = acc ++ qPairs q := by
  induction q with
  | nil =>
    intro acc _ _
    simp [qPairs]
  | cons e q ih =>
    intro acc hnd h
    rw [List.foldl_cons, buildQueryStep_eq acc e (h e (List.mem_cons_self _ _))]
    simp only [List.map_cons, List.nodup_cons] at hnd
    have h2 : ∀ e2 ∈ q, ∀ p ∈ acc ++ qexpand e, p.1 ≠ e2.1 := by
      intro e2 he2 p hp
      rcases List.mem_append.mp hp with hpa | hpe
      · exact h e2 (List.mem_cons_of_mem _ he2) p hpa
      · rw [qexpand_key e p hpe]
        intro hkk
        exact hnd.1 (hkk ▸ List.mem_map_of_mem Prod.fst he2)
    rw [ih _ hnd.2 h2, List.append_assoc]
    rfl

/-- With pairwise-distinct keys (a JS object's entries), the accumulated
`URLSearchParams` pairs are exactly the spec-side expansion: dropped
`null`/`undefined` entries, arrays repeated once per element in order,
scalars once. -/
theorem buildQueryParams_eq (q : List (JStr × QueryValue))
    (hnd : (q.map Prod.fst).Nodup) : buildQueryParams q = qPairs q := by
  have h := buildQueryParams_foldl q [] hnd (by simp)
  simpa [buildQueryParams] using h

/-- The serialized parameter list is empty exactly when the pair list is. -/
theorem uspToString_eq_nil_iff (l : List (JStr × JStr)) : uspToString l = [] ↔ l = [] := by
  constructor
  · intro h
    cases l with
    | nil => rfl
    | cons p l2 =>
      exfalso
      cases l2 with
      | nil => simp [uspToString, joinSep] at h
      | cons p2 l3 => simp [uspToString, joinSep] at h
  · intro h
    subst h
    rfl

/-- C5: query serialization drops `null`/`undefined` entries, repeats a
key once per array element in order, sets scalars once in their literal
string form, and the result is appended to the path after a single
question mark, omitted entirely when no pairs survive. -/
theorem c5_query_serialization (q : List (JStr × QueryValue))
    (hnd : (q.map Prod.fst).Nodup)
    (route : RouteDefinition) (base : JStr) (options : ClientOptions) :
    buildQuery q =
      joinSep '&' ((qPairs q).map (fun p => formUrlEncode p.1 ++ '=' :: formUrlEncode p.2)) ∧
    ∃ req, buildRequest route base options
        { params := none, query := some q, body := none } = Except.ok req ∧
      req.url = base ++
        (if qPairs q = [] then route.path else route.path ++ '?' :: buildQuery q) := by
  have hbp := buildQueryParams_eq q hnd
  have hiff : buildQuery q = [] ↔ qPairs q = [] := by
    unfold buildQuery
    rw [hbp]
    exact uspToString_eq_nil_iff _
  constructor
  · unfold buildQuery
    rw [hbp]
    rfl
  · refine ⟨_, rfl, ?_⟩
    by_cases hqp : qPairs q = []
    · have hbq : buildQuery q = [] := hiff.mpr hqp
      simp [hbq, hqp]
    · have hbq : ¬ buildQuery q = [] := fun h2 => hqp (hiff.mp h2)
      simp [hbq, hqp]

/-- Witness for C5 at a concrete query with a dropped entry, a scalar and
an array. -/
theorem c5_witness :
    ([strL "limit", strL "search", strL "tags"] : List JStr).Nodup ∧
    buildQuery
      [(strL "limit", QueryValue.prim (QPrim.int 5)),
       (strL "search", QueryValue.undef),
       (strL "tags", QueryValue.arr [QPrim.str (strL "a"), QPrim.str (strL "b")])] =
      strL "limit=5&tags=a&tags=b" := by
  refine ⟨by decide, ?_⟩
  have h := (c5_query_serialization
    [(strL "limit", QueryValue.prim (QPrim.int 5)),
     (strL "search", QueryValue.undef),
     (strL "tags", QueryValue.arr [QPrim.str (strL "a"), QPrim.str (strL "b")])]
    (by decide)
    { method := HttpMethod.GET, path := [],
      _params := none, _query := none, _body := none, _output := none }
    [] { baseUrl := [], headers := [], mapResponse := none, parseError := none }).1
  rw [h]
  decide

/-- Unfolding: interpolation of the empty template. -/
theorem interp_nil (ps : List (JStr × JStr)) : interpolatePath ps [] = Except.ok [] := by
  simp [interpolatePath]

/-- Unfolding: interpolation of a lone trailing sigil. -/
theorem interp_single_colon (ps : List (JStr × JStr)) :
    interpolatePath ps [':'] = Except.ok [':'] := by
  simp [interpolatePath]

/-- Unfolding: interpolation at a placeholder whose value is found. -/
theorem interp_colon_ident_some (ps : List (JStr × JStr)) (c : Char) (rest : JStr) (v : JStr)
    (h : isIdentStart c = true)
    (hv : lookupL ps (List.takeWhile isIdentChar (c :: rest)) = some v) :
    interpolatePath ps (':' :: c :: rest) =
      Except.map (fun t => encodeURIComponent v ++ t)
        (interpolatePath ps (List.dropWhile isIdentChar (c :: rest))) := by
  simp [interpolatePath, h, hv]

/-- Unfolding: interpolation at a placeholder whose value is missing. -/
theorem interp_colon_ident_none (ps : List (JStr × JStr)) (c : Char) (rest : JStr)
    (h : isIdentStart c = true)
    (hv : lookupL ps (List.takeWhile isIdentChar (c :: rest)) = none) :
    interpolatePath ps (':' :: c :: rest) =
      Except.error (List.takeWhile isIdentChar (c :: rest)) := by
  simp [interpolatePath, h, hv]

/-- Unfolding: a sigil not followed by an identifier is copied. -/
theorem interp_colon_nonident (ps : List (JStr × JStr)) (c : Char) (rest : JStr)
    (h : ¬ isIdentStart c = true) :
    interpolatePath ps (':' :: c :: rest) =
      Except.map (fun t => ':' :: t) (interpolatePath ps (c :: rest)) := by
  simp [interpolatePath, h]

/-- Unfolding: an ordinary character is copied. -/
theorem interp_other (ps : List (JStr × JStr)) (c : Char) (rest : JStr) (h : ¬ c = ':') :
    interpolatePath ps (c :: rest) =
      Except.map (fun t => c :: t) (interpolatePath ps rest) := by
  rw [interpolatePath.eq_def]
  simp [h]

/-- Unfolding: the empty template has no placeholders. -/
theorem placeholders_nil : placeholdersL [] = [] := by
  simp [placeholdersL]

/-- Unfolding: a lone trailing sigil is no placeholder. -/
theorem placeholders_single_colon : placeholdersL [':'] = [] := by
  simp [placeholdersL]

/-- Unfolding: the placeholders of a template starting with a placeholder. -/
theorem placeholders_colon_ident (c : Char) (rest : JStr) (h : isIdentStart c = true) :
    placeholdersL (':' :: c :: rest) =
      List.takeWhile isIdentChar (c :: rest) ::
        placeholdersL (List.dropWhile isIdentChar (c :: rest)) := by
  simp [placeholdersL, h]

/-- Unfolding: a sigil not followed by an identifier adds no placeholder. -/
theorem placeholders_colon_nonident (c : Char) (rest : JStr) (h : ¬ isIdentStart c = true) :
    placeholdersL (':' :: c :: rest) = placeholdersL (c :: rest) := by
  simp [placeholdersL, h]

/-- Unfolding: an ordinary character adds no placeholder. -/
theorem placeholders_other (c : Char) (rest : JStr) (h : ¬ c = ':') :
    placeholdersL (c :: rest) = placeholdersL rest := by
  rw [placeholdersL.eq_def]
  simp [h]

/-- Unfolding: rendering the empty template. -/
theorem render_nil (ps : List (JStr × JStr)) : renderTemplate ps [] = [] := by
  simp [renderTemplate]

/-- Unfolding: rendering a lone trailing sigil. -/
theorem render_single_colon (ps : List (JStr × JStr)) : renderTemplate ps [':'] = [':'] := by
  simp [renderTemplate]

/-- Unfolding: rendering at a placeholder. -/
theorem render_colon_ident (ps : List (JStr × JStr)) (c : Char) (rest : JStr)
    (h : isIdentStart c = true) :
    renderTemplate ps (':' :: c :: rest) =
      encodeURIComponent ((lookupL ps (List.takeWhile isIdentChar (c :: rest))).getD [])
        ++ renderTemplate ps (List.dropWhile isIdentChar (c :: rest)) := by
  simp [renderTemplate, h]

/-- Unfolding: rendering a sigil not followed by an identifier. -/
theorem render_colon_nonident (ps : List (JStr × JStr)) (c : Char) (rest : JStr)
    (h : ¬ isIdentStart c = true) :
    renderTemplate ps (':' :: c :: rest) = ':' :: renderTemplate ps (c :: rest) := by
  simp [renderTemplate, h]

/-- Unfolding: rendering an ordinary character. -/
theorem render_other (ps : List (JStr × JStr)) (c : Char) (rest : JStr) (h : ¬ c = ':') :
    renderTemplate ps (c :: rest) = c :: renderTemplate ps rest := by
  rw [renderTemplate.eq_def]
  simp [h]

/-- A list lookup with default avoiding a character avoids it. -/
theorem list_getD_ne {l : JStr} {d c : Char} (hl : ∀ x ∈ l, x ≠ c) (hd : d ≠ c) :
    ∀ n, l.getD n d ≠ c := by
  induction l with
  | nil =>
    intro n
    simpa [List.getD] using hd
  | cons x xs ih =>
    intro n
    cases n with
    | zero => simpa [List.getD] using hl x (List.mem_cons_self _ _)
    | succ m =>
      rw [List.getD_cons_succ]
      exact ih (fun y hy => hl y (List.mem_cons_of_mem _ hy)) m

/-- The hex-digit function never yields the sigil. -/
theorem hexDigitChar_ne_colon (n : Nat) : hexDigitChar n ≠ ':' := by
  unfold hexDigitChar
  exact list_getD_ne (by decide) (by decide) n

/-- Percent escapes never contain the sigil. -/
theorem percentByte_ne_colon (b : Nat) (c : Char) (hc : c ∈ percentByte b) : c ≠ ':' := by
  simp [percentByte] at hc
  rcases hc with h | h | h
  · rw [h]; decide
  · rw [h]; exact hexDigitChar_ne_colon _
  · rw [h]; exact hexDigitChar_ne_colon _

/-- The percent-encoding of a character never contains the sigil. -/
theorem percentEncodeChar_ne_colon (x c : Char) (hc : c ∈ percentEncodeChar x) : c ≠ ':' := by
  unfold percentEncodeChar at hc
  generalize utf8Bytes x = bs at hc
  induction bs with
  | nil => simp at hc
  | cons b bs ih =>
    simp only [List.foldr_cons] at hc
    rcases List.mem_append.mp hc with h | h
    · exact percentByte_ne_colon b c h
    · exact ih h

/-- `encodeURIComponent` output never contains the sigil: `:` is escaped. -/
theorem encodeURIComponent_ne_colon (s : JStr) (c : Char)
    (hc : c ∈ encodeURIComponent s) : c ≠ ':' := by
  induction s with
  | nil => simp [encodeURIComponent] at hc
  | cons x rest ih =>
    simp only [encodeURIComponent] at hc
    rcases List.mem_append.mp hc with h | h
    · by_cases hu : isUriUnreserved x = true
      · rw [if_pos hu] at h
        simp at h
        rw [h]
        intro he
        rw [he] at hu
        exact absurd hu (by decide)
      · rw [if_neg hu] at h
        exact percentEncodeChar_ne_colon x c h
    · exact ih h

/-- Appending a sigil-free prefix to a token-free string stays token-free. -/
theorem hasPT_append_no_colon (a b : JStr) (ha : ∀ c ∈ a, c ≠ ':')
    (hb : hasPlaceholderToken b = false) : hasPlaceholderToken (a ++ b) = false := by
  induction a with
  | nil => simpa using hb
  | cons c rest ih =>
    simp only [List.cons_append, hasPlaceholderToken, Bool.or_eq_false_iff]
    constructor
    · rw [if_neg (ha c (List.mem_cons_self _ _))]
    · exact ih (fun c2 hc2 => ha c2 (List.mem_cons_of_mem _ hc2))

/-- A template with no double sigil stays so on its tail. -/
theorem okTemplate_tail {c : Char} {rest : JStr} (h : okTemplate (c :: rest) = true) :
    okTemplate rest = true := by
  simp only [okTemplate, Bool.and_eq_true] at h
  exact h.2

/-- A template starting with a sigil and with no double sigil does not
continue with a placeholder. -/
theorem okTemplate_colon_head {rest : JStr} (h : okTemplate (':' :: rest) = true) :
    startsColonIdent rest = false := by
  simp only [okTemplate, Bool.and_eq_true, if_pos, Bool.not_eq_true'] at h
  simpa using h.1

/-- Dropping a prefix preserves the no-double-sigil property. -/
theorem okTemplate_dropWhile (p : Char → Bool) (l : JStr) (h : okTemplate l = true) :
    okTemplate (l.dropWhile p) = true := by
  induction l with
  | nil => simpa using h
  | cons c rest ih =>
    rw [List.dropWhile_cons]
    split
    · exact ih (okTemplate_tail h)
    · exact h

/-- A Boolean that is not true is false. -/
theorem bool_eq_false_of_ne_true {b : Bool} (h : ¬ b = true) : b = false := by
  cases b
  · rfl
  · exact absurd rfl h

/-- The interpolation of a template that neither starts with an identifier
character nor with a placeholder never starts with an identifier
character. -/
theorem interpolate_head (ps : List (JStr × JStr)) (l : JStr) (r : JStr)
    (hr : interpolatePath ps l = Except.ok r)
    (h1 : startsIdent l = false) (h2 : startsColonIdent l = false) :
    startsIdent r = false := by
  cases l with
  | nil =>
    rw [interp_nil] at hr
    injection hr with h
    rw [← h]
    decide
  | cons c rest =>
    by_cases hc : c = ':'
    · subst hc
      cases rest with
      | nil =>
        rw [interp_single_colon] at hr
        injection hr with h
        rw [← h]
        decide
      | cons d tail =>
        have hd : isIdentStart d = false := by
          simpa [startsColonIdent, startsIdent] using h2
        rw [interp_colon_nonident ps d tail (by rw [hd]; simp)] at hr
        obtain ⟨r2, hr2, hre⟩ := except_map_ok _ _ _ hr
        rw [hre]
        show startsIdent (':' :: r2) = false
        simp [startsIdent]
        decide
    · rw [interp_other ps c rest hc] at hr
      obtain ⟨r2, hr2, hre⟩ := except_map_ok _ _ _ hr
      rw [hre]
      show startsIdent (c :: r2) = false
      simpa [startsIdent] using h1

/-- When every placeholder has a supplied value, interpolation succeeds and
substitutes the percent-encoding of each value. -/
theorem interpolate_complete (ps : List (JStr × JStr)) (l : JStr) :
    (∀ k ∈ placeholdersL l, (lookupL ps k).isSome) →
    interpolatePath ps l = Except.ok (renderTemplate ps l) := by
  induction l using interpolatePath.induct ps with
  | case1 =>
    intro _
    rw [interp_nil, render_nil]
  | case2 =>
    intro _
    rw [interp_single_colon, render_single_colon]
  | case3 c rest h hl =>
    intro hc
    exfalso
    have hm : List.takeWhile isIdentChar (c :: rest) ∈ placeholdersL (':' :: c :: rest) := by
      rw [placeholders_colon_ident c rest h]
      exact List.mem_cons_self _ _
    have h2 := hc _ hm
    rw [hl] at h2
    simp at h2
  | case4 c rest h v hv ih =>
    intro hc
    have hc2 : ∀ k ∈ placeholdersL (List.dropWhile isIdentChar (c :: rest)),
        (lookupL ps k).isSome := by
      intro k hk
      apply hc
      rw [placeholders_colon_ident c rest h]
      exact List.mem_cons_of_mem _ hk
    rw [interp_colon_ident_some ps c rest v h hv, render_colon_ident ps c rest h, ih hc2, hv]
    rfl
  | case5 c rest h ih =>
    intro hc
    have hc2 : ∀ k ∈ placeholdersL (c :: rest), (lookupL ps k).isSome := by
      intro k hk
      apply hc
      rw [placeholders_colon_nonident c rest h]
      exact hk
    rw [interp_colon_nonident ps c rest h, render_colon_nonident ps c rest h, ih hc2]
    rfl
  | case6 c rest h ih =>
    intro hc
    have hc2 : ∀ k ∈ placeholdersL rest, (lookupL ps k).isSome := by
      intro k hk
      apply hc
      rw [placeholders_other c rest h]
      exact hk
    rw [interp_other ps c rest h, render_other ps c rest h, ih hc2]
    rfl

/-- When some placeholder has no supplied value, interpolation fails with
a missing-path-parameter error naming such a placeholder. -/
theorem interpolate_missing (ps : List (JStr × JStr)) (l : JStr) :
    ∀ k0, k0 ∈ placeholdersL l → lookupL ps k0 = none →
    ∃ k, k ∈ placeholdersL l ∧ lookupL ps k = none ∧
      interpolatePath ps l = Except.error k := by
  induction l using interpolatePath.induct ps with
  | case1 =>
    intro k0 hk _
    rw [placeholders_nil] at hk
    simp at hk
  | case2 =>
    intro k0 hk _
    rw [placeholders_single_colon] at hk
    simp at hk
  | case3 c rest h hl =>
    intro k0 _ _
    refine ⟨List.takeWhile isIdentChar (c :: rest), ?_, hl,
      interp_colon_ident_none ps c rest h hl⟩
    rw [placeholders_colon_ident c rest h]
    exact List.mem_cons_self _ _
  | case4 c rest h v hv ih =>
    intro k0 hk hn
    rw [placeholders_colon_ident c rest h] at hk
    rcases List.mem_cons.mp hk with he | ht
    · rw [he] at hn
      rw [hv] at hn
      cases hn
    · obtain ⟨k, hk1, hk2, hk3⟩ := ih k0 ht hn
      refine ⟨k, ?_, hk2, ?_⟩
      · rw [placeholders_colon_ident c rest h]
        exact List.mem_cons_of_mem _ hk1
      · rw [interp_colon_ident_some ps c rest v h hv, hk3]
        rfl
  | case5 c rest h ih =>
    intro k0 hk hn
    rw [placeholders_colon_nonident c rest h] at hk
    obtain ⟨k, hk1, hk2, hk3⟩ := ih k0 hk hn
    refine ⟨k, ?_, hk2, ?_⟩
    · rw [placeholders_colon_nonident c rest h]
      exact hk1
    · rw [interp_colon_nonident ps c rest h, hk3]
      rfl
  | case6 c rest h ih =>
    intro k0 hk hn
    rw [placeholders_other c rest h] at hk
    obtain ⟨k, hk1, hk2, hk3⟩ := ih k0 hk hn
    refine ⟨k, ?_, hk2, ?_⟩
    · rw [placeholders_other c rest h]
      exact hk1
    · rw [interp_other ps c rest h, hk3]
      rfl

/-- Interpolation reads only the values of the placeholders that occur in
the template: mapping entries not referenced by it are ignored. -/
theorem interpolate_extras_ignored (ps ps' : List (JStr × JStr)) (l : JStr) :
    (∀ k ∈ placeholdersL l, lookupL ps' k = lookupL ps k) →
    interpolatePath ps' l = interpolatePath ps l := by
  induction l using interpolatePath.induct ps with
  | case1 =>
    intro _
    rw [interp_nil, interp_nil]
  | case2 =>
    intro _
    rw [interp_single_colon, interp_single_colon]
  | case3 c rest h hl =>
    intro ha
    have he : lookupL ps' (List.takeWhile isIdentChar (c :: rest)) = none := by
      rw [ha _ (by rw [placeholders_colon_ident c rest h]; exact List.mem_cons_self _ _), hl]
    rw [interp_colon_ident_none ps c rest h hl, interp_colon_ident_none ps' c rest h he]
  | case4 c rest h v hv ih =>
    intro ha
    have he : lookupL ps' (List.takeWhile isIdentChar (c :: rest)) = some v := by
      rw [ha _ (by rw [placeholders_colon_ident c rest h]; exact List.mem_cons_self _ _), hv]
    have ha2 : ∀ k ∈ placeholdersL (List.dropWhile isIdentChar (c :: rest)),
        lookupL ps' k = lookupL ps k := by
      intro k hk
      apply ha
      rw [placeholders_colon_ident c rest h]
      exact List.mem_cons_of_mem _ hk
    rw [interp_colon_ident_some ps c rest v h hv, interp_colon_ident_some ps' c rest v h he,
      ih ha2]
  | case5 c rest h ih =>
    intro ha
    have ha2 : ∀ k ∈ placeholdersL (c :: rest), lookupL ps' k = lookupL ps k := by
      intro k hk
      apply ha
      rw [placeholders_colon_nonident c rest h]
      exact hk
    rw [interp_colon_nonident ps c rest h, interp_colon_nonident ps' c rest h, ih ha2]
  | case6 c rest h ih =>
    intro ha
    have ha2 : ∀ k ∈ placeholdersL rest, lookupL ps' k = lookupL ps k := by
      intro k hk
      apply ha
      rw [placeholders_other c rest h]
      exact hk
    rw [interp_other ps c rest h, interp_other ps' c rest h, ih ha2]

/-- On a template with no double sigil, a successful interpolation leaves
no placeholder token in its output. -/
theorem interpolate_no_token (ps : List (JStr × JStr)) (l : JStr) :
    ∀ r, okTemplate l = true → interpolatePath ps l = Except.ok r →
    hasPlaceholderToken r = false := by
  induction l using interpolatePath.induct ps with
  | case1 =>
    intro r _ hr
    rw [interp_nil] at hr
    injection hr with h
    rw [← h]
    decide
  | case2 =>
    intro r _ hr
    rw [interp_single_colon] at hr
    injection hr with h
    rw [← h]
    decide
  | case3 c rest h hl =>
    intro r _ hr
    rw [interp_colon_ident_none ps c rest h hl] at hr
    cases hr
  | case4 c rest h v hv ih =>
    intro r hok hr
    rw [interp_colon_ident_some ps c rest v h hv] at hr
    obtain ⟨r2, hr2, hre⟩ := except_map_ok _ _ _ hr
    have hok2 : okTemplate (List.dropWhile isIdentChar (c :: rest)) = true :=
      okTemplate_dropWhile _ _ (okTemplate_tail hok)
    have htok2 := ih r2 hok2 hr2
    rw [hre]
    show hasPlaceholderToken (encodeURIComponent v ++ r2) = false
    exact hasPT_append_no_colon _ _ (fun ch hch => encodeURIComponent_ne_colon v ch hch) htok2
  | case5 c rest h ih =>
    intro r hok hr
    rw [interp_colon_nonident ps c rest h] at hr
    obtain ⟨r2, hr2, hre⟩ := except_map_ok _ _ _ hr
    have htok2 := ih r2 (okTemplate_tail hok) hr2
    have hic : isIdentStart c = false := bool_eq_false_of_ne_true h
    have hhead : startsIdent r2 = false := by
      apply interpolate_head ps (c :: rest) r2 hr2
      · simpa [startsIdent] using hic
      · exact okTemplate_colon_head hok
    rw [hre]
    show hasPlaceholderToken (':' :: r2) = false
    simp [hasPlaceholderToken, hhead, htok2]
  | case6 c rest h ih =>
    intro r hok hr
    rw [interp_other ps c rest h] at hr
    obtain ⟨r2, hr2, hre⟩ := except_map_ok _ _ _ hr
    have htok2 := ih r2 (okTemplate_tail hok) hr2
    rw [hre]
    show hasPlaceholderToken (c :: r2) = false
    simp [hasPlaceholderToken, h, htok2]

/-- C4 (amended): with a value supplied for every placeholder,
interpolation replaces each placeholder by the percent-encoding of its
value and ignores unreferenced mapping entries, and — provided no
placeholder is immediately preceded by a further sigil — no placeholder
token remains; with some placeholder unsupplied, interpolation fails with
a missing-path-parameter error naming such a placeholder. -/
theorem c4_interpolation (path : JStr) (ps : List (JStr × JStr)) :
    ((∀ k ∈ placeholdersL path, (lookupL ps k).isSome) →
      interpolatePath ps path = Except.ok (renderTemplate ps path) ∧
      (okTemplate path = true →
        hasPlaceholderToken (renderTemplate ps path) = false) ∧
      (∀ ps', (∀ k ∈ placeholdersL path, lookupL ps' k = lookupL ps k) →
        interpolatePath ps' path = interpolatePath ps path)) ∧
    ((∃ k ∈ placeholdersL path, lookupL ps k = none) →
      ∃ k, k ∈ placeholdersL path ∧ lookupL ps k = none ∧
        interpolatePath ps path = Except.error k) := by
  constructor
  · intro hc
    have hok := interpolate_complete ps path hc
    refine ⟨hok, ?_, fun ps' ha => interpolate_extras_ignored ps ps' path ha⟩
    intro hot
    have h2 := interpolate_no_token ps path _ hot hok
    exact h2
  · intro hex
    obtain ⟨k0, hk0, hn0⟩ := hex
    exact interpolate_missing ps path k0 hk0 hn0

/-- C4 counterexample: on the template `::id` with a complete mapping, the
interpolated result `:abc` still contains a placeholder token, refuting
the claim that no placeholder tokens remain. -/
theorem c4_counterexample :
    (∀ k ∈ placeholdersL (strL "::id"),
      (lookupL [(strL "id", strL "abc")] k).isSome) ∧
    interpolatePath [(strL "id", strL "abc")] (strL "::id") =
      Except.ok (strL ":abc") ∧
    hasPlaceholderToken (strL ":abc") = true := by
  refine ⟨?_, ?_, by decide⟩
  · simp +decide [placeholdersL, strL, isIdentStart, isIdentChar, lookupL]
  · simp +decide [interpolatePath, strL, lookupL, isIdentStart, isIdentChar,
      encodeURIComponent, isUriUnreserved, Except.map]

/-- Witness for the amended C4 at a concrete route template and mapping,
including the percent-encoding of a reserved character. -/
theorem c4_witness :
    (∀ k ∈ placeholdersL (strL "/users/:id"),
      (lookupL [(strL "id", strL "hello world")] k).isSome) ∧
    interpolatePath [(strL "id", strL "hello world")] (strL "/users/:id") =
      Except.ok (strL "/users/hello%20world") := by
  have hc : ∀ k ∈ placeholdersL (strL "/users/:id"),
      (lookupL [(strL "id", strL "hello world")] k).isSome := by
    simp +decide [placeholdersL, strL, isIdentStart, isIdentChar, lookupL]
  refine ⟨hc, ?_⟩
  have h := ((c4_interpolation (strL "/users/:id") [(strL "id", strL "hello world")]).1 hc).1
  rw [h]
  simp +decide [renderTemplate, strL, lookupL, isIdentStart, isIdentChar,
    encodeURIComponent, isUriUnreserved, percentEncodeChar, utf8Bytes, percentByte,
    hexDigitChar, hexDigits]
